import Mathlib

/-!
Verification of the Pending Mutation Tracker & SQL Statement Synthesizer of
the `oxide` desktop database client.

The development shallowly embeds:
* the Value Codec (cell-edit text coercion from `commitEdit` / `startEditing`
  in `src/src/components/SQLEditor.tsx`, DataTable section, lines 216-256);
* the Changeset Store and Statement Synthesizer (the `useTableMutations` hook,
  whose implementation is not part of the provided sources; modelled from the
  spec, sections 3, 4.2 and 4.3);
* the Commit Coordinator (`handleCommit` in
  `src/src/components/TabContentTable.tsx`, lines 135-167) and the
  `PendingChanges` statement-editor component
  (`src/src/components/PendingChanges.tsx`).

JavaScript numbers are modelled as integers (`Int`): every numeric value
appearing in the spec scenarios is an integer, and the codec laws are stated
over this integer fragment.  JavaScript `parseFloat` is correspondingly
modelled as a full-string integer parse, and `toLowerCase` as character-wise
ASCII lowering.
-/

/-- Cell values of the grid: `null | string | number | boolean`, with numbers
modelled as integers. -/
inductive CellValue where
  | null
  | str (s : String)
  | num (n : Int)
  | bool (b : Bool)
deriving DecidableEq, Repr, Inhabited

/-- Fuel-driven accumulation of the decimal digits of a natural number, most
significant first; the fuel only bounds the recursion depth. -/
def natDigitsGo : Nat → Nat → List Char → List Char
  | 0, _, acc => acc
  | fuel + 1, n, acc =>
    if n < 10 then Nat.digitChar n :: acc
    else natDigitsGo fuel (n / 10) (Nat.digitChar (n % 10) :: acc)

/-- Decimal digits (most significant first) of a natural number, the model of
JavaScript number-to-string conversion for naturals. -/
def natToDigits (n : Nat) (acc : List Char) : List Char :=
  natDigitsGo (n + 1) n acc

/-- Display string of an integer, the model of JavaScript `String(n)` for
integer-valued numbers. -/
def intToString (i : Int) : String :=
  if i < 0 then String.mk ('-' :: natToDigits i.natAbs [])
  else String.mk (natToDigits i.natAbs [])

/-- Numeric value of a decimal digit character. -/
def digitVal (c : Char) : Nat := c.toNat - 48

/-- Value of a big-endian list of decimal digit characters. -/
def valOfDigits (cs : List Char) : Nat :=
  cs.foldl (fun a c => a * 10 + digitVal c) 0

/-- Full-string parse of a natural number: at least one character, all decimal
digits. -/
def parseNatDigits (cs : List Char) : Option Nat :=
  if cs.isEmpty then none
  else if cs.all (fun c => c.isDigit) then some (valOfDigits cs) else none

/-- Full-string parse of an integer: an optional leading minus sign followed
by decimal digits. -/
def parseIntDigits (cs : List Char) : Option Int :=
  match cs with
  | [] => none
  | c :: rest =>
    if c = '-' then (parseNatDigits rest).map (fun m => -(m : Int))
    else (parseNatDigits (c :: rest)).map (fun m => (m : Int))

/-- Model of JavaScript `parseFloat`, restricted to the integer fragment of
the value model: a full-string integer parse, `none` standing for `NaN`. -/
def parseFloatInt (s : String) : Option Int := parseIntDigits s.data

/-- Model of JavaScript falsy-coalescing `x || 0` on a parse result: `NaN`
(`none`) and `0` are both replaced by `0`. -/
def orZero : Option Int → Int
  | none => 0
  | some x => if x = 0 then 0 else x

/-- Model of JavaScript `toLowerCase`: character-wise ASCII lowering. -/
def lowerString (s : String) : String := String.mk (s.data.map Char.toLower)

/-- A string accepted in full by the model float parse. -/
def isValidFloatLiteral (s : String) : Bool := (parseFloatInt s).isSome

/-- Embedding of `startEditing` (`src/src/components/SQLEditor.tsx`, DataTable
section, lines 216-219): the editable text of a cell value is the empty string
for `null` and the display string otherwise. -/
def toEditText : CellValue → String
  | CellValue.null => ""
  | CellValue.str s => s
  | CellValue.num n => intToString n
  | CellValue.bool b => if b then "true" else "false"

/-- Does the cell value carry a JavaScript number? -/
def isNum : CellValue → Bool
  | CellValue.num _ => true
  | _ => false

/-- Does the cell value carry a JavaScript boolean? -/
def isBool : CellValue → Bool
  | CellValue.bool _ => true
  | _ => false

/-- Embedding of the value coercion in `commitEdit`
(`src/src/components/SQLEditor.tsx`, DataTable section, lines 233-241), kept
in the source's control-flow shape: empty or case-insensitive `"null"` text
becomes `null`; against a non-null numeric original the text is float-parsed
with the falsy `|| 0` fallback; against a non-null boolean original the text
compares case-insensitively with `"true"`; otherwise the text is kept as a
string. -/
def fromEditText (text : String) (originalValue : CellValue) : CellValue :=
  if text = "" ∨ lowerString text = "null" then CellValue.null
  else if originalValue ≠ CellValue.null ∧ isNum originalValue then
    CellValue.num (orZero (parseFloatInt text))
  else if originalValue ≠ CellValue.null ∧ isBool originalValue then
    CellValue.bool (lowerString text = "true")
  else CellValue.str text

/-- Modelled from the spec: one pending cell change inside an `Update` row
entry (`cellChanges` item, spec section 3), carrying the column position and
name and the original and replacement values.  The `useTableMutations` hook
that owns this record is not among the provided sources. -/
structure CellChange where
  columnIndex : Nat
  columnName : String
  oldValue : CellValue
  newValue : CellValue
deriving DecidableEq, Repr

/-- Modelled from the spec: the per-row tagged union of pending changes
(spec section 3), with exactly one active variant per row.  The
`useTableMutations` hook that owns this type is not among the provided
sources. -/
inductive RowChange where
  | insert (values : List CellValue)
  | update (cellChanges : List CellChange)
  | delete
deriving DecidableEq, Repr, Inhabited

/-- The Changeset: a mapping from a row index to its single `RowChange`,
represented as an association list kept sorted by strictly ascending row
index. -/
abbrev Changeset := List (Nat × RowChange)

/-- Lookup of the entry recorded for a row index. -/
def lookupEntry (i : Nat) : Changeset → Option RowChange
  | [] => none
  | (j, c) :: rest => if j = i then some c else lookupEntry i rest

/-- Insert-or-replace of the entry for a row index, keeping the association
list sorted by ascending row index. -/
def setEntry (i : Nat) (c : RowChange) : Changeset → Changeset
  | [] => [(i, c)]
  | (j, d) :: rest =>
    if i < j then (i, c) :: (j, d) :: rest
    else if i = j then (i, c) :: rest
    else (j, d) :: setEntry i c rest

/-- Removal of the entry for a row index. -/
def removeEntry (i : Nat) (cs : Changeset) : Changeset :=
  cs.filter (fun e => e.1 != i)

/-- Modelled from the spec: `insertRow(rowIndex, values)` creates an `Insert`
entry at the row index (spec section 4.2).  The `useTableMutations` hook is
not among the provided sources. -/
def insertRow (rowIndex : Nat) (values : List CellValue) (cs : Changeset) :
    Changeset :=
  setEntry rowIndex (RowChange.insert values) cs

/-- Modelled from the spec: replacement or revert of the `cellChanges` entry
for one column (spec section 4.2): an existing entry has its `newValue`
replaced, or is removed when the new value equals its original `oldValue`;
otherwise a fresh entry is appended unless the new value already equals the
old one. -/
def upsertCellChange (columnName : String) (columnIndex : Nat)
    (oldValue newValue : CellValue) (ccs : List CellChange) :
    List CellChange :=
  match ccs.find? (fun cc => cc.columnIndex == columnIndex) with
  | some cc =>
    if newValue = cc.oldValue then
      ccs.filter (fun cc => cc.columnIndex != columnIndex)
    else
      ccs.map (fun cc =>
        if cc.columnIndex == columnIndex then { cc with newValue := newValue }
        else cc)
  | none =>
    if newValue = oldValue then ccs
    else ccs ++ [⟨columnIndex, columnName, oldValue, newValue⟩]

/-- Modelled from the spec: `updateCell` (spec section 4.2).  A pending
`Insert` row has its value vector patched in place; a `Delete` row ignores the
edit; otherwise the `Update` entry's `cellChanges` are created or extended,
and the whole row entry is dropped when `cellChanges` becomes empty.  The
`useTableMutations` hook is not among the provided sources. -/
def updateCell (rowIndex : Nat) (columnName : String) (columnIndex : Nat)
    (oldValue newValue : CellValue) (cs : Changeset) : Changeset :=
  match lookupEntry rowIndex cs with
  | some (RowChange.insert vs) =>
    setEntry rowIndex (RowChange.insert (vs.set columnIndex newValue)) cs
  | some RowChange.delete => cs
  | some (RowChange.update ccs) =>
    let ccs' := upsertCellChange columnName columnIndex oldValue newValue ccs
    if ccs'.isEmpty then removeEntry rowIndex cs
    else setEntry rowIndex (RowChange.update ccs') cs
  | none =>
    if newValue = oldValue then cs
    else
      setEntry rowIndex
        (RowChange.update [⟨columnIndex, columnName, oldValue, newValue⟩]) cs

/-- Modelled from the spec: `deleteRow` (spec section 4.2).  A pending
`Insert` entry is removed outright (cancelling the insert); any other row gets
its entry set or overwritten to `Delete`.  The `useTableMutations` hook is not
among the provided sources. -/
def deleteRow (rowIndex : Nat) (cs : Changeset) : Changeset :=
  match lookupEntry rowIndex cs with
  | some (RowChange.insert _) => removeEntry rowIndex cs
  | _ => setEntry rowIndex RowChange.delete cs

/-- Modelled from the spec: `getRowState` is a read-only lookup (spec
section 4.2). -/
def getRowState (rowIndex : Nat) (cs : Changeset) : Option RowChange :=
  lookupEntry rowIndex cs

/-- Modelled from the spec: `hasChanges()` is true iff the Changeset is
non-empty (spec section 4.2). -/
def hasChanges (cs : Changeset) : Bool := !cs.isEmpty

/-- Modelled from the spec: `revertAll()` clears the Changeset
unconditionally (spec section 4.2). -/
def revertAll (_cs : Changeset) : Changeset := []

/-- A column or table identifier, always double-quoted (spec section 4.3). -/
def quoteIdent (name : String) : String := "\"" ++ name ++ "\""

/-- Doubling of every embedded single quote of a string. -/
def escapeSingleQuotes (s : String) : String :=
  String.mk (s.data.foldr
    (fun c acc => if c = '\'' then '\'' :: '\'' :: acc else c :: acc) [])

/-- Modelled from the spec: the Value Codec's `toSqlLiteral` (spec
section 4.1): `null` becomes `NULL`, strings are single-quoted with embedded
quotes doubled, numbers and booleans keep their textual form unquoted.  The
`useTableMutations` hook is not among the provided sources. -/
def toSqlLiteral : CellValue → String
  | CellValue.null => "NULL"
  | CellValue.str s => "'" ++ escapeSingleQuotes s ++ "'"
  | CellValue.num n => intToString n
  | CellValue.bool b => if b then "true" else "false"

/-- Position of a column name in the column list (length when absent). -/
def indexOfName (name : String) : List String → Nat
  | [] => 0
  | c :: rest => if c = name then 0 else indexOfName name rest + 1

/-- Modelled from the spec: the `WHERE` predicate of the Statement Synthesizer
(spec section 4.3).  With a known primary-key column the predicate equates the
quoted key column with the literal of that row's key value; otherwise it is a
conjunction over every column of the quoted column name equated with the
literal of the row's value, with `IS NULL` in place of `= NULL`. -/
def wherePredicate (columnNames : List String) (primaryKeyColumn : Option String)
    (row : List CellValue) : String :=
  match primaryKeyColumn with
  | some pkName =>
    quoteIdent pkName ++ " = " ++
      toSqlLiteral (row.getD (indexOfName pkName columnNames) CellValue.null)
  | none =>
    String.intercalate " AND "
      ((columnNames.zip row).map (fun p =>
        match p.2 with
        | CellValue.null => quoteIdent p.1 ++ " IS NULL"
        | v => quoteIdent p.1 ++ " = " ++ toSqlLiteral v))

/-- Modelled from the spec: the `INSERT` statement of the Statement
Synthesizer (spec section 4.3, scenario B). -/
def insertStatement (tableName : String) (columnNames : List String)
    (values : List CellValue) : String :=
  "INSERT INTO " ++ quoteIdent tableName ++ " (" ++
    String.intercalate ", " (columnNames.map quoteIdent) ++ ") VALUES (" ++
    String.intercalate ", " (values.map toSqlLiteral) ++ ");"

/-- Modelled from the spec: the `UPDATE` statement of the Statement
Synthesizer (spec section 4.3, scenario C): the SET list is exactly the
`cellChanges` entries with their new values. -/
def updateStatement (tableName : String) (columnNames : List String)
    (primaryKeyColumn : Option String) (row : List CellValue)
    (ccs : List CellChange) : String :=
  "UPDATE " ++ quoteIdent tableName ++ " SET " ++
    String.intercalate ", "
      (ccs.map (fun cc => quoteIdent cc.columnName ++ "=" ++
        toSqlLiteral cc.newValue)) ++
    " WHERE " ++ wherePredicate columnNames primaryKeyColumn row ++ ";"

/-- Modelled from the spec: the `DELETE` statement of the Statement
Synthesizer (spec section 4.3, scenario D), its predicate built identically to
the `UPDATE` one. -/
def deleteStatement (tableName : String) (columnNames : List String)
    (primaryKeyColumn : Option String) (row : List CellValue) : String :=
  "DELETE FROM " ++ quoteIdent tableName ++ " WHERE " ++
    wherePredicate columnNames primaryKeyColumn row ++ ";"

/-- The statement synthesized for one Changeset entry, reading the Grid
Snapshot row for `UPDATE`/`DELETE` predicates. -/
def statementFor (tableName : String) (columnNames : List String)
    (primaryKeyColumn : Option String) (rows : List (List CellValue))
    (entry : Nat × RowChange) : String :=
  match entry.2 with
  | RowChange.insert vs => insertStatement tableName columnNames vs
  | RowChange.update ccs =>
    updateStatement tableName columnNames primaryKeyColumn
      (rows.getD entry.1 []) ccs
  | RowChange.delete =>
    deleteStatement tableName columnNames primaryKeyColumn
      (rows.getD entry.1 [])

/-- Modelled from the spec: `generateSQL` (spec section 4.3) iterates the
Changeset entries in ascending row-index order, one statement per entry.  The
`useTableMutations` hook is not among the provided sources. -/
def generateSQL (tableName : String) (columnNames : List String)
    (primaryKeyColumn : Option String) (rows : List (List CellValue))
    (cs : Changeset) : List String :=
  cs.map (statementFor tableName columnNames primaryKeyColumn rows)

/-- The sortedness invariant of the Changeset representation: the row indices
of the entries are strictly ascending. -/
def ChangesetSorted (cs : Changeset) : Prop :=
  cs.Pairwise (fun a b => a.1 < b.1)

/-- The commit-relevant view state of `TabContentTable`
(`src/src/components/TabContentTable.tsx`): the pending Changeset, the
surfaced commit error and the loading flag (which `PendingChanges` receives as
`isCommitting`). -/
structure CommitState where
  changeset : Changeset
  commitError : Option String
  loading : Bool
deriving DecidableEq, Repr

/-- The backend's answer to `execute_mutations`: acceptance, or rejection with
an opaque message. -/
inductive BackendResult where
  | ok
  | err (msg : String)
deriving DecidableEq, Repr

/-- Embedding of `handleCommit` (`src/src/components/TabContentTable.tsx`,
lines 135-167).  The guard returns unchanged when the connection id is falsy
or the statement list is empty, sending nothing; otherwise the batch is sent
(second component), and on success the Changeset is cleared via `revertAll`
while on failure only the error message is recorded. -/
def handleCommit (connectionId : String) (statements : List String)
    (backend : BackendResult) (s : CommitState) :
    CommitState × Option (List String) :=
  if connectionId = "" ∨ statements.isEmpty then (s, none)
  else
    match backend with
    | BackendResult.ok =>
      ({ s with changeset := revertAll s.changeset, commitError := none,
                loading := false }, some statements)
    | BackendResult.err m =>
      ({ s with commitError := some m, loading := false }, some statements)

/-- Embedding of the commit button of `PendingChanges`
(`src/src/components/PendingChanges.tsx`, lines 61-68): the button carries
`disabled={isCommitting}`, so a click while committing emits no commit
request. -/
def commitClick (isCommitting : Bool) (editedStatements : List String) :
    Option (List String) :=
  if isCommitting then none else some editedStatements

/-- A full commit attempt as driven from the `PendingChanges` commit button
wired to `handleCommit` (`onCommit` prop in
`src/src/components/TabContentTable.tsx`, line 316): the pair is the resulting
state and the batch sent to the backend, if any. -/
def attemptCommit (connectionId : String) (editedStatements : List String)
    (backend : BackendResult) (s : CommitState) :
    CommitState × Option (List String) :=
  match commitClick s.loading editedStatements with
  | none => (s, none)
  | some stmts => handleCommit connectionId stmts backend s

/-- Embedding of the synchronization effect of `PendingChanges`
(`src/src/components/PendingChanges.tsx`, lines 23-27): the operator-edited
statement list is replaced by the freshly synthesized one only when the two
lengths differ. -/
def syncEditedStatements (initialStatements editedStatements : List String) :
    List String :=
  if initialStatements.length ≠ editedStatements.length then initialStatements
  else editedStatements

/-- Folding a sequence of `updateCell` calls on one row and one column, all
carrying the same recorded `oldValue` (the snapshot value the view layer
passes on every edit), over a Changeset. -/
def applyEdits (rowIndex : Nat) (columnName : String) (columnIndex : Nat)
    (oldValue : CellValue) (newValues : List CellValue) (cs : Changeset) :
    Changeset :=
  newValues.foldl
    (fun c nv => updateCell rowIndex columnName columnIndex oldValue nv c) cs

theorem lookupEntry_setEntry_self (i : Nat) (c : RowChange) (cs : Changeset) :
    lookupEntry i (setEntry i c cs) = some c := by
  induction cs with
  | nil => simp [setEntry, lookupEntry]
  | cons e rest ih =>
    obtain ⟨j, d⟩ := e
    by_cases h1 : i < j
    · simp [setEntry, h1, lookupEntry]
    · by_cases h2 : i = j
      · simp [setEntry, h1, h2, lookupEntry]
      · have h3 : ¬ (j = i) := fun hh => h2 hh.symm
        simp [setEntry, h1, h2, lookupEntry, h3, ih]

theorem lookupEntry_removeEntry_self (i : Nat) (cs : Changeset) :
    lookupEntry i (removeEntry i cs) = none := by
  induction cs with
  | nil => simp [removeEntry, lookupEntry]
  | cons e rest ih =>
    obtain ⟨j, d⟩ := e
    by_cases h : j = i
    · subst h
      simpa [removeEntry, List.filter_cons] using ih
    · simpa [removeEntry, List.filter_cons, h, lookupEntry] using ih

/-- Claim C3: `insertRow(rowIndex, values)` followed by `deleteRow(rowIndex)`
leaves the Changeset with no entry for that row — the pending `Insert` is
removed outright instead of being recorded as a `Delete` — and starting from
an empty Changeset the result is the empty Changeset. -/
theorem c3_insert_delete_cancellation (rowIndex : Nat)
    (values : List CellValue) (cs : Changeset) :
    getRowState rowIndex (deleteRow rowIndex (insertRow rowIndex values cs))
        = none
  ∧ deleteRow rowIndex (insertRow rowIndex values []) = [] := by
  constructor
  · have hl : lookupEntry rowIndex (insertRow rowIndex values cs)
        = some (RowChange.insert values) :=
      lookupEntry_setEntry_self rowIndex (RowChange.insert values) cs
    simp [deleteRow, hl, getRowState, lookupEntry_removeEntry_self]
  · simp [deleteRow, insertRow, setEntry, lookupEntry, removeEntry]

/-- Claim C1: a commit attempt with a non-empty batch clears the entire
Changeset via `revertAll()` when the backend accepts; when the backend
rejects, the Changeset after the failed attempt is exactly the one from
before the attempt and the failure reason is surfaced verbatim as an opaque
message. -/
theorem c1_commit_success_and_failure (connectionId : String)
    (statements : List String) (s : CommitState)
    (hc : connectionId ≠ "") (hs : statements ≠ []) :
    (handleCommit connectionId statements BackendResult.ok s).1.changeset
        = revertAll s.changeset
  ∧ revertAll s.changeset = []
  ∧ (handleCommit connectionId statements BackendResult.ok s).2
        = some statements
  ∧ ∀ m : String,
      (handleCommit connectionId statements (BackendResult.err m) s).1.changeset
          = s.changeset
      ∧ (handleCommit connectionId statements (BackendResult.err m)
            s).1.commitError = some m := by
  have h1 : statements.isEmpty = false := by
    cases statements with
    | nil => exact absurd rfl hs
    | cons a as => rfl
  simp [handleCommit, hc, h1, revertAll]

theorem c1_commit_success_and_failure_witness :
    (handleCommit "conn" ["stmt"] BackendResult.ok
        ⟨[(0, RowChange.delete)], none, true⟩).1.changeset = []
  ∧ (handleCommit "conn" ["stmt"] (BackendResult.err "boom")
        ⟨[(0, RowChange.delete)], none, true⟩).1.changeset
      = [(0, RowChange.delete)]
  ∧ (handleCommit "conn" ["stmt"] (BackendResult.err "boom")
        ⟨[(0, RowChange.delete)], none, true⟩).1.commitError = some "boom" := by
  have h := c1_commit_success_and_failure "conn" ["stmt"]
    ⟨[(0, RowChange.delete)], none, true⟩ (by decide) (by simp)
  exact ⟨h.1.trans h.2.1, (h.2.2.2 "boom").1, (h.2.2.2 "boom").2⟩

/-- Claim C9: a commit invoked while a previous attempt is still committing
(the `loading` flag `PendingChanges` receives as `isCommitting`) is rejected
by the disabled commit button: the state, in particular the Changeset, is
unchanged and no batch is sent to the backend. -/
theorem c9_concurrent_commit_rejected (connectionId : String)
    (editedStatements : List String) (backend : BackendResult)
    (s : CommitState) (h : s.loading = true) :
    attemptCommit connectionId editedStatements backend s = (s, none) := by
  simp [attemptCommit, commitClick, h]

theorem c9_concurrent_commit_rejected_witness :
    attemptCommit "conn" ["stmt"] BackendResult.ok
        ⟨[(1, RowChange.delete)], none, true⟩
      = (⟨[(1, RowChange.delete)], none, true⟩, none) :=
  c9_concurrent_commit_rejected "conn" ["stmt"] BackendResult.ok
    ⟨[(1, RowChange.delete)], none, true⟩ rfl

/-- Claim C10: the operator-editable statement list of `PendingChanges` is
resynchronized from the freshly synthesized statements only when the number
of statements changes; when the lengths agree the edited text is left as-is,
so a commit then sends the previously edited statements rather than the newly
synthesized ones. -/
theorem c10_stale_edited_statements (fresh edited : List String)
    (h : fresh.length = edited.length) :
    syncEditedStatements fresh edited = edited
  ∧ commitClick false (syncEditedStatements fresh edited) = some edited
  ∧ ∀ f e : List String, f.length ≠ e.length → syncEditedStatements f e = f := by
  refine ⟨by simp [syncEditedStatements, h], by simp [syncEditedStatements, h, commitClick], ?_⟩
  intro f e hne
  simp [syncEditedStatements, hne]

theorem c10_stale_edited_statements_witness :
    syncEditedStatements ["FRESH;"] ["EDITED;"] = ["EDITED;"]
  ∧ commitClick false (syncEditedStatements ["FRESH;"] ["EDITED;"])
      = some ["EDITED;"] := by
  have h := c10_stale_edited_statements ["FRESH;"] ["EDITED;"] rfl
  exact ⟨h.1, h.2.1⟩


theorem natDigitsGo_fuel (f1 f2 n : Nat) (acc : List Char)
    (h1 : n < f1) (h2 : n < f2) :
    natDigitsGo f1 n acc = natDigitsGo f2 n acc := by
  induction f1 generalizing f2 n acc with
  | zero => omega
  | succ g ih =>
    cases f2 with
    | zero => omega
    | succ h =>
      by_cases hn : n < 10
      · simp [natDigitsGo, hn]
      · simp only [natDigitsGo, hn, if_neg, if_false]
        exact ih h (n / 10) _ (by omega) (by omega)

theorem natToDigits_step (n : Nat) (acc : List Char) :
    natToDigits n acc =
      if n < 10 then Nat.digitChar n :: acc
      else natToDigits (n / 10) (Nat.digitChar (n % 10) :: acc) := by
  by_cases hn : n < 10
  · simp [natToDigits, natDigitsGo, hn]
  · simp only [natToDigits, natDigitsGo, hn, if_false]
    exact natDigitsGo_fuel n (n / 10 + 1) (n / 10) _ (by omega) (by omega)

theorem natToDigits_append (n : Nat) (acc : List Char) :
    natToDigits n acc = natToDigits n [] ++ acc := by
  induction n using Nat.strong_induction_on generalizing acc with
  | _ n ih =>
    by_cases hn : n < 10
    · simp [natToDigits_step, hn]
    · rw [natToDigits_step, if_neg hn, natToDigits_step n [], if_neg hn,
        ih (n / 10) (by omega), ih (n / 10) (by omega)
          (Nat.digitChar (n % 10) :: [])]
      simp

theorem digitVal_digitChar {d : Nat} (h : d < 10) :
    digitVal (Nat.digitChar d) = d := by
  interval_cases d <;> decide

theorem isDigit_digitChar {d : Nat} (h : d < 10) :
    (Nat.digitChar d).isDigit = true := by
  interval_cases d <;> decide

theorem toLower_digitChar {d : Nat} (h : d < 10) :
    Char.toLower (Nat.digitChar d) = Nat.digitChar d := by
  interval_cases d <;> decide

theorem natToDigits_spec (n : Nat) :
    valOfDigits (natToDigits n []) = n
  ∧ natToDigits n [] ≠ []
  ∧ ∀ c ∈ natToDigits n [], ∃ d, d < 10 ∧ c = Nat.digitChar d := by
  induction n using Nat.strong_induction_on with
  | _ n ih =>
    by_cases hn : n < 10
    · rw [natToDigits_step, if_pos hn]
      refine ⟨?_, by simp, ?_⟩
      · simp [valOfDigits, digitVal_digitChar hn]
      · intro c hc
        simp only [List.mem_singleton] at hc
        exact ⟨n, hn, hc⟩
    · rw [natToDigits_step, if_neg hn, natToDigits_append]
      obtain ⟨ih1, ih2, ih3⟩ := ih (n / 10) (by omega)
      refine ⟨?_, by simp, ?_⟩
      · have hm : n % 10 < 10 := Nat.mod_lt _ (by omega)
        simp [valOfDigits, List.foldl_append] at ih1 ⊢
        rw [ih1, digitVal_digitChar hm]
        omega
      · intro c hc
        rcases List.mem_append.mp hc with hc | hc
        · exact ih3 c hc
        · simp only [List.mem_singleton] at hc
          exact ⟨n % 10, Nat.mod_lt _ (by omega), hc⟩

theorem parseNat_natToDigits (n : Nat) :
    parseNatDigits (natToDigits n []) = some n := by
  obtain ⟨h1, h2, h3⟩ := natToDigits_spec n
  have hE : (natToDigits n []).isEmpty = false := by
    cases hL : natToDigits n [] with
    | nil => exact absurd hL h2
    | cons c rest => rfl
  have hA : (natToDigits n []).all (fun c => c.isDigit) = true := by
    rw [List.all_eq_true]
    intro c hc
    obtain ⟨d, hd, rfl⟩ := h3 c hc
    exact isDigit_digitChar hd
  simp [parseNatDigits, hE, hA, h1]

theorem parseFloat_intToString (i : Int) :
    parseFloatInt (intToString i) = some i := by
  by_cases h : i < 0
  · have hdata : (intToString i).data = '-' :: natToDigits i.natAbs [] := by
      simp [intToString, h]
    have hp := parseNat_natToDigits i.natAbs
    rw [parseFloatInt, hdata]
    simp [parseIntDigits, hp]
    rw [abs_of_neg h]
    ring
  · obtain ⟨hv, hne, hall⟩ := natToDigits_spec i.natAbs
    have hdata : (intToString i).data = natToDigits i.natAbs [] := by
      simp [intToString, h]
    cases hL : natToDigits i.natAbs [] with
    | nil => exact absurd hL hne
    | cons c rest =>
      have hc : ∃ d, d < 10 ∧ c = Nat.digitChar d := by
        apply hall
        rw [hL]
        exact List.mem_cons_self c rest
      have hcm : ¬ (c = '-') := by
        obtain ⟨d, hd, rfl⟩ := hc
        interval_cases d <;> decide
      have hp := parseNat_natToDigits i.natAbs
      rw [hL] at hp
      rw [parseFloatInt, hdata, hL]
      simp [parseIntDigits, hcm, hp]
      omega

theorem intToString_chars (i : Int) :
    ∀ c ∈ (intToString i).data, c = '-' ∨ ∃ d, d < 10 ∧ c = Nat.digitChar d := by
  intro c hc
  obtain ⟨-, -, hall⟩ := natToDigits_spec i.natAbs
  by_cases h : i < 0
  · have hdata : (intToString i).data = '-' :: natToDigits i.natAbs [] := by
      simp [intToString, h]
    rw [hdata] at hc
    rcases List.mem_cons.mp hc with hc | hc
    · exact Or.inl hc
    · exact Or.inr (hall c hc)
  · have hdata : (intToString i).data = natToDigits i.natAbs [] := by
      simp [intToString, h]
    rw [hdata] at hc
    exact Or.inr (hall c hc)

theorem intToString_ne_empty (i : Int) : intToString i ≠ "" := by
  obtain ⟨-, hne, -⟩ := natToDigits_spec i.natAbs
  intro hcontra
  have hdata := congrArg String.data hcontra
  by_cases h : i < 0 <;> simp [intToString, h] at hdata
  exact hne hdata

theorem lowerString_intToString (i : Int) :
    lowerString (intToString i) = intToString i := by
  rw [lowerString, String.ext_iff]
  show ((intToString i).data.map Char.toLower) = (intToString i).data
  apply (List.map_congr_left ?_).trans (List.map_id _)
  intro c hc
  rcases intToString_chars i c hc with rfl | ⟨d, hd, rfl⟩
  · decide
  · exact toLower_digitChar hd

theorem lowerString_intToString_ne_null (i : Int) :
    lowerString (intToString i) ≠ "null" := by
  rw [lowerString_intToString]
  intro hcontra
  have hdata := congrArg String.data hcontra
  have hn : 'n' ∈ (intToString i).data := by
    rw [hdata]
    decide
  rcases intToString_chars i 'n' hn with hh | ⟨d, hd, hh⟩
  · exact absurd hh (by decide)
  · interval_cases d <;> exact absurd hh (by decide)

theorem orZero_eq_getD (o : Option Int) : orZero o = o.getD 0 := by
  cases o with
  | none => rfl
  | some x =>
    by_cases h : x = 0 <;> simp [orZero, h]

/-- Claim C5: `fromEditText(text, originalValue)` returns `null` when the text
is empty or case-insensitively equals `"null"`; otherwise, against a numeric
original, the float parse of the text with `0` substituted on parse failure;
against a boolean original, `true` exactly when the text case-insensitively
equals `"true"`; and otherwise the text itself as a string. -/
theorem c5_fromEditText_characterization (text : String) (v : CellValue) :
    fromEditText text v =
      if text = "" ∨ lowerString text = "null" then CellValue.null
      else
        match v with
        | CellValue.num _ => CellValue.num ((parseFloatInt text).getD 0)
        | CellValue.bool _ => CellValue.bool (lowerString text = "true")
        | _ => CellValue.str text := by
  by_cases h : text = "" ∨ lowerString text = "null"
  · simp [fromEditText, h]
  · cases v <;> simp [fromEditText, h, isNum, isBool, orZero_eq_getD]

/-- Claim C8 fails as stated: the string value `"null"` is neither a number
nor a boolean, yet its edit round trip collapses to `null` because the edit
text `"null"` is re-coerced by the case-insensitive null rule. -/
theorem c8_roundtrip_counterexample :
    fromEditText (toEditText (CellValue.str "null")) (CellValue.str "null")
      ≠ CellValue.str "null" := by decide

/-- Claim C8 (amended): the edit round trip `fromEditText(toEditText(v), v)`
returns `v` for `null` and for every string `v` that is neither empty nor
case-insensitively equal to `"null"`; for numeric `v` the round trip holds
exactly when `toEditText(v)` is a valid float literal. -/
theorem c8_roundtrip_amended :
    fromEditText (toEditText CellValue.null) CellValue.null = CellValue.null
  ∧ (∀ s : String, s ≠ "" → lowerString s ≠ "null" →
      fromEditText (toEditText (CellValue.str s)) (CellValue.str s)
        = CellValue.str s)
  ∧ (∀ n : Int,
      fromEditText (toEditText (CellValue.num n)) (CellValue.num n)
          = CellValue.num n
        ↔ isValidFloatLiteral (toEditText (CellValue.num n)) = true) := by
  refine ⟨by simp [fromEditText, toEditText], ?_, ?_⟩
  · intro s hs hnull
    simp [fromEditText, toEditText, hs, hnull, isNum, isBool]
  · intro n
    have hne := intToString_ne_empty n
    have hnul := lowerString_intToString_ne_null n
    have hrt := parseFloat_intToString n
    apply iff_of_true
    · simp only [toEditText, fromEditText, hne, hnul, or_self, if_false,
        isNum, orZero_eq_getD, hrt]
      simp
    · simp [toEditText, isValidFloatLiteral, hrt]

theorem c8_roundtrip_amended_witness :
    fromEditText (toEditText (CellValue.str "Alice")) (CellValue.str "Alice")
        = CellValue.str "Alice"
  ∧ (fromEditText (toEditText (CellValue.num 28)) (CellValue.num 28)
        = CellValue.num 28
      ↔ isValidFloatLiteral (toEditText (CellValue.num 28)) = true) :=
  ⟨c8_roundtrip_amended.2.1 "Alice" (by decide) (by decide),
   c8_roundtrip_amended.2.2 28⟩

theorem escapeSingleQuotes_data (s : String) :
    (escapeSingleQuotes s).data
      = s.data.flatMap
          (fun c => if c = '\'' then ['\'', '\''] else [c]) := by
  show (s.data.foldr
    (fun c acc => if c = '\'' then '\'' :: '\'' :: acc else c :: acc) []) = _
  induction s.data with
  | nil => rfl
  | cons c l ih =>
    by_cases h : c = '\'' <;>
      simp [List.foldr_cons, List.flatMap_cons, h, ih]

/-- Claim C6: `toSqlLiteral` maps `null` to `NULL`, a string to the value in
single quotes with every embedded single quote doubled, and a number or a
boolean to its literal textual form unquoted; consequently the insert of
`[null, "Alice", 28]` yields `VALUES (NULL, 'Alice', 28)` and setting `name`
to `O'Brien` yields `"name"='O''Brien'`. -/
theorem c6_toSqlLiteral_forms :
    toSqlLiteral CellValue.null = "NULL"
  ∧ (∀ s : String, (toSqlLiteral (CellValue.str s)).data
      = '\'' :: (s.data.flatMap
          fun c => if c = '\'' then ['\'', '\''] else [c]) ++ ['\''])
  ∧ (∀ n : Int, toSqlLiteral (CellValue.num n) = intToString n)
  ∧ (∀ b : Bool, toSqlLiteral (CellValue.bool b)
      = if b then "true" else "false")
  ∧ insertStatement "users" ["id", "name", "age"]
        [CellValue.null, CellValue.str "Alice", CellValue.num 28]
      = "INSERT INTO \"users\" (\"id\", \"name\", \"age\") VALUES (NULL, 'Alice', 28);"
  ∧ updateStatement "users" ["id", "name", "age"] (some "id")
        [CellValue.num 5, CellValue.str "Bob", CellValue.num 30]
        [⟨1, "name", CellValue.str "Bob", CellValue.str "O'Brien"⟩]
      = "UPDATE \"users\" SET \"name\"='O''Brien' WHERE \"id\" = 5;" := by
  refine ⟨rfl, ?_, fun n => rfl, fun b => rfl, by decide, by decide⟩
  intro s
  show ("'" ++ escapeSingleQuotes s ++ "'").data = _
  rw [String.data_append, String.data_append, escapeSingleQuotes_data]
  rfl

/-- Claim C7: for `Update` and `Delete` entries the synthesized `WHERE`
predicate equates the double-quoted primary-key column with the literal of
the row's key value when the primary key is known, and otherwise conjoins
over every column the double-quoted name equated with the literal of the
row's value, with `IS NULL` replacing `= NULL`; the `Delete` predicate is
built by the same function from the row's current values. -/
theorem c7_where_predicate :
    (∀ t cols pk row, deleteStatement t cols pk row
        = "DELETE FROM " ++ quoteIdent t ++ " WHERE "
            ++ wherePredicate cols pk row ++ ";")
  ∧ (∀ t cols pk row ccs, updateStatement t cols pk row ccs
        = "UPDATE " ++ quoteIdent t ++ " SET "
            ++ String.intercalate ", " (ccs.map fun cc =>
                quoteIdent cc.columnName ++ "=" ++ toSqlLiteral cc.newValue)
            ++ " WHERE " ++ wherePredicate cols pk row ++ ";")
  ∧ (∀ cols pkName row, wherePredicate cols (some pkName) row
        = quoteIdent pkName ++ " = "
            ++ toSqlLiteral (row.getD (indexOfName pkName cols) CellValue.null))
  ∧ (∀ cols row, wherePredicate cols (none : Option String) row
        = String.intercalate " AND " ((cols.zip row).map fun p =>
            match p.2 with
            | CellValue.null => quoteIdent p.1 ++ " IS NULL"
            | v => quoteIdent p.1 ++ " = " ++ toSqlLiteral v))
  ∧ deleteStatement "t" ["id", "name", "note"] none
        [CellValue.num 7, CellValue.str "x", CellValue.null]
      = "DELETE FROM \"t\" WHERE \"id\" = 7 AND \"name\" = 'x' AND \"note\" IS NULL;" :=
  ⟨fun t cols pk row => rfl, fun t cols pk row ccs => rfl,
   fun cols pkName row => rfl, fun cols row => rfl, by decide⟩

theorem updateCell_lookup_step (row : Nat) (colName : String) (colIdx : Nat)
    (ov nv : CellValue) (c : Changeset)
    (h : lookupEntry row c = none
      ∨ ∃ w, w ≠ ov ∧ lookupEntry row c
          = some (RowChange.update [⟨colIdx, colName, ov, w⟩])) :
    (lookupEntry row (updateCell row colName colIdx ov nv c) = none
      ∨ ∃ w, w ≠ ov ∧ lookupEntry row (updateCell row colName colIdx ov nv c)
          = some (RowChange.update [⟨colIdx, colName, ov, w⟩]))
  ∧ (nv = ov →
      lookupEntry row (updateCell row colName colIdx ov nv c) = none) := by
  rcases h with h | ⟨w, hw, h⟩
  · simp only [updateCell, h]
    by_cases he : nv = ov
    · simp [he, h]
    · constructor
      · exact Or.inr ⟨nv, he, by rw [if_neg he, lookupEntry_setEntry_self]⟩
      · intro hc
        exact absurd hc he
  · simp only [updateCell, h]
    have hfind : List.find?
        (fun cc => cc.columnIndex == colIdx)
        [(⟨colIdx, colName, ov, w⟩ : CellChange)]
        = some ⟨colIdx, colName, ov, w⟩ := by
      simp [List.find?]
    by_cases he : nv = ov
    · have hup : upsertCellChange colName colIdx ov nv
          [⟨colIdx, colName, ov, w⟩] = [] := by
        simp [upsertCellChange, hfind, he]
      rw [hup]
      simp [lookupEntry_removeEntry_self]
    · have hup : upsertCellChange colName colIdx ov nv
          [⟨colIdx, colName, ov, w⟩]
          = [⟨colIdx, colName, ov, nv⟩] := by
        simp [upsertCellChange, hfind, he]
      rw [hup]
      refine ⟨Or.inr ⟨nv, he, ?_⟩, fun hc => absurd hc he⟩
      simp [lookupEntry_setEntry_self]

theorem updateCell_list_step (row : Nat) (colName : String) (colIdx : Nat)
    (ov nv : CellValue) (c : Changeset)
    (h : c = [] ∨ ∃ w, w ≠ ov
        ∧ c = [(row, RowChange.update [⟨colIdx, colName, ov, w⟩])]) :
    (updateCell row colName colIdx ov nv c = []
      ∨ ∃ w, w ≠ ov ∧ updateCell row colName colIdx ov nv c
          = [(row, RowChange.update [⟨colIdx, colName, ov, w⟩])])
  ∧ (nv = ov → updateCell row colName colIdx ov nv c = []) := by
  rcases h with rfl | ⟨w, hw, rfl⟩
  · simp only [updateCell, lookupEntry]
    by_cases he : nv = ov
    · simp [he]
    · refine ⟨Or.inr ⟨nv, he, ?_⟩, fun hc => absurd hc he⟩
      simp [he, setEntry]
  · have hl : lookupEntry row
        [(row, RowChange.update [⟨colIdx, colName, ov, w⟩])]
        = some (RowChange.update [⟨colIdx, colName, ov, w⟩]) := by
      simp [lookupEntry]
    simp only [updateCell, hl]
    have hfind : List.find?
        (fun cc => cc.columnIndex == colIdx)
        [(⟨colIdx, colName, ov, w⟩ : CellChange)]
        = some ⟨colIdx, colName, ov, w⟩ := by
      simp [List.find?]
    by_cases he : nv = ov
    · have hup : upsertCellChange colName colIdx ov nv
          [⟨colIdx, colName, ov, w⟩] = [] := by
        simp [upsertCellChange, hfind, he]
      rw [hup]
      simp [removeEntry]
    · have hup : upsertCellChange colName colIdx ov nv
          [⟨colIdx, colName, ov, w⟩]
          = [⟨colIdx, colName, ov, nv⟩] := by
        simp [upsertCellChange, hfind, he]
      rw [hup]
      refine ⟨Or.inr ⟨nv, he, ?_⟩, fun hc => absurd hc he⟩
      simp [setEntry]

theorem applyEdits_lookup_none (row : Nat) (colName : String) (colIdx : Nat)
    (ov : CellValue) :
    ∀ (news : List CellValue) (c : Changeset),
      (lookupEntry row c = none
        ∨ ∃ w, w ≠ ov ∧ lookupEntry row c
            = some (RowChange.update [⟨colIdx, colName, ov, w⟩])) →
      news ≠ [] → news.getLast? = some ov →
      lookupEntry row (applyEdits row colName colIdx ov news c) = none := by
  intro news
  induction news with
  | nil =>
    intro c _ hne _
    exact absurd rfl hne
  | cons nv rest ih =>
    intro c hInv hne hlast
    have hstep := updateCell_lookup_step row colName colIdx ov nv c hInv
    cases rest with
    | nil =>
      have hnv : nv = ov := by simpa using hlast
      simpa [applyEdits] using hstep.2 hnv
    | cons r rs =>
      have hlast2 : (r :: rs).getLast? = some ov := by
        simpa [List.getLast?_cons_cons] using hlast
      have hrec := ih (updateCell row colName colIdx ov nv c) hstep.1
        (by simp) hlast2
      simpa [applyEdits, List.foldl_cons] using hrec

theorem applyEdits_empty (row : Nat) (colName : String) (colIdx : Nat)
    (ov : CellValue) :
    ∀ (news : List CellValue) (c : Changeset),
      (c = [] ∨ ∃ w, w ≠ ov
          ∧ c = [(row, RowChange.update [⟨colIdx, colName, ov, w⟩])]) →
      news ≠ [] → news.getLast? = some ov →
      applyEdits row colName colIdx ov news c = [] := by
  intro news
  induction news with
  | nil =>
    intro c _ hne _
    exact absurd rfl hne
  | cons nv rest ih =>
    intro c hInv hne hlast
    have hstep := updateCell_list_step row colName colIdx ov nv c hInv
    cases rest with
    | nil =>
      have hnv : nv = ov := by simpa using hlast
      simpa [applyEdits] using hstep.2 hnv
    | cons r rs =>
      have hlast2 : (r :: rs).getLast? = some ov := by
        simpa [List.getLast?_cons_cons] using hlast
      have hrec := ih (updateCell row colName colIdx ov nv c) hstep.1
        (by simp) hlast2
      simpa [applyEdits, List.foldl_cons] using hrec

/-- Claim C2: a sequence of `updateCell` calls on one row and one column of a
row with no pending entry, all carrying the snapshot `oldValue` and ending
with a call whose `newValue` equals that recorded `oldValue`, leaves the
Changeset with no entry for that row; and starting from an empty Changeset
(no other row has changes) `hasChanges()` is `false` afterwards. -/
theorem c2_update_coalescing (row : Nat) (colName : String) (colIdx : Nat)
    (ov : CellValue) (news : List CellValue) (cs : Changeset)
    (hrow : getRowState row cs = none) (hne : news ≠ [])
    (hlast : news.getLast? = some ov) :
    getRowState row (applyEdits row colName colIdx ov news cs) = none
  ∧ hasChanges (applyEdits row colName colIdx ov news []) = false := by
  constructor
  · exact applyEdits_lookup_none row colName colIdx ov news cs
      (Or.inl hrow) hne hlast
  · rw [applyEdits_empty row colName colIdx ov news [] (Or.inl rfl) hne hlast]
    rfl

theorem c2_update_coalescing_witness :
    getRowState 2 (applyEdits 2 "age" 2 (CellValue.num 30)
        [CellValue.num 31, CellValue.num 30] []) = none
  ∧ hasChanges (applyEdits 2 "age" 2 (CellValue.num 30)
        [CellValue.num 31, CellValue.num 30] []) = false :=
  c2_update_coalescing 2 "age" 2 (CellValue.num 30)
    [CellValue.num 31, CellValue.num 30] [] rfl (by simp) rfl

theorem mem_setEntry {b : Nat × RowChange} {i : Nat} {c : RowChange} :
    ∀ {cs : Changeset}, b ∈ setEntry i c cs → b = (i, c) ∨ b ∈ cs := by
  intro cs
  induction cs with
  | nil =>
    intro hb
    simp only [setEntry, List.mem_singleton] at hb
    exact Or.inl hb
  | cons e rest ih =>
    obtain ⟨j, d⟩ := e
    intro hb
    by_cases h1 : i < j
    · simp only [setEntry, if_pos h1, List.mem_cons] at hb
      rcases hb with hb | hb | hb
      · exact Or.inl hb
      · exact Or.inr (by simp [hb])
      · exact Or.inr (List.mem_cons_of_mem _ hb)
    · by_cases h2 : i = j
      · simp only [setEntry, if_neg h1, if_pos h2, List.mem_cons] at hb
        rcases hb with hb | hb
        · exact Or.inl hb
        · exact Or.inr (List.mem_cons_of_mem _ hb)
      · simp only [setEntry, if_neg h1, if_neg h2, List.mem_cons] at hb
        rcases hb with hb | hb
        · exact Or.inr (by simp [hb])
        · rcases ih hb with hb | hb
          · exact Or.inl hb
          · exact Or.inr (List.mem_cons_of_mem _ hb)

theorem setEntry_sorted (i : Nat) (c : RowChange) :
    ∀ {cs : Changeset}, ChangesetSorted cs →
      ChangesetSorted (setEntry i c cs) := by
  intro cs
  induction cs with
  | nil =>
    intro _
    simp [setEntry, ChangesetSorted]
  | cons e rest ih =>
    obtain ⟨j, d⟩ := e
    intro h
    rw [ChangesetSorted, List.pairwise_cons] at h
    obtain ⟨h1, h2⟩ := h
    by_cases hc1 : i < j
    · rw [setEntry, if_pos hc1, ChangesetSorted, List.pairwise_cons]
      refine ⟨?_, List.pairwise_cons.mpr ⟨h1, h2⟩⟩
      intro b hb
      rcases List.mem_cons.mp hb with rfl | hb
      · exact hc1
      · exact lt_trans hc1 (h1 b hb)
    · by_cases hc2 : i = j
      · rw [setEntry, if_neg hc1, if_pos hc2, ChangesetSorted,
          List.pairwise_cons]
        exact ⟨fun b hb => hc2 ▸ h1 b hb, h2⟩
      · rw [setEntry, if_neg hc1, if_neg hc2, ChangesetSorted,
          List.pairwise_cons]
        refine ⟨?_, ih h2⟩
        intro b hb
        rcases mem_setEntry hb with rfl | hb
        · omega
        · exact h1 b hb

theorem removeEntry_sorted (i : Nat) {cs : Changeset}
    (h : ChangesetSorted cs) : ChangesetSorted (removeEntry i cs) :=
  List.Pairwise.sublist (List.filter_sublist cs) h

theorem insertRow_sorted (rowIndex : Nat) (values : List CellValue)
    {cs : Changeset} (h : ChangesetSorted cs) :
    ChangesetSorted (insertRow rowIndex values cs) :=
  setEntry_sorted rowIndex (RowChange.insert values) h

theorem deleteRow_sorted (rowIndex : Nat) {cs : Changeset}
    (h : ChangesetSorted cs) : ChangesetSorted (deleteRow rowIndex cs) := by
  rw [deleteRow]
  cases hL : lookupEntry rowIndex cs with
  | none => exact setEntry_sorted rowIndex RowChange.delete h
  | some rc =>
    cases rc with
    | insert vs => exact removeEntry_sorted rowIndex h
    | update ccs => exact setEntry_sorted rowIndex RowChange.delete h
    | delete => exact setEntry_sorted rowIndex RowChange.delete h

theorem updateCell_sorted (rowIndex : Nat) (columnName : String)
    (columnIndex : Nat) (oldValue newValue : CellValue) {cs : Changeset}
    (h : ChangesetSorted cs) :
    ChangesetSorted (updateCell rowIndex columnName columnIndex
      oldValue newValue cs) := by
  rw [updateCell]
  cases hL : lookupEntry rowIndex cs with
  | none =>
    by_cases he : newValue = oldValue
    · simpa [he] using h
    · simpa [he] using setEntry_sorted rowIndex _ h
  | some rc =>
    cases rc with
    | insert vs => exact setEntry_sorted rowIndex _ h
    | update ccs =>
      by_cases he : (upsertCellChange columnName columnIndex oldValue
          newValue ccs).isEmpty
      · simpa [he] using removeEntry_sorted rowIndex h
      · simpa [he] using setEntry_sorted rowIndex _ h
    | delete => exact h

/-- Claim C4: on a Changeset satisfying the store's ascending-index invariant
(preserved by every operation), `generateSQL` returns exactly one statement
per Changeset entry — the output length equals the number of entries and the
i-th statement is synthesized from the i-th entry — the entries being in
strictly ascending row-index order; `Insert` entries whose values are all
null still produce a statement. -/
theorem c4_generateSQL_shape (t : String) (cols : List String)
    (pk : Option String) (rows : List (List CellValue)) (cs : Changeset)
    (hs : ChangesetSorted cs) :
    (generateSQL t cols pk rows cs).length = cs.length
  ∧ (∀ i : Nat, (generateSQL t cols pk rows cs)[i]?
      = (cs[i]?).map (statementFor t cols pk rows))
  ∧ (∀ i j : Nat, i < j → j < cs.length →
      ∀ ei ej : Nat × RowChange, cs[i]? = some ei → cs[j]? = some ej →
        ei.1 < ej.1)
  ∧ (∀ idx vs, (idx, RowChange.insert vs) ∈ cs →
      vs.all (fun v => v == CellValue.null) = true →
        insertStatement t cols vs ∈ generateSQL t cols pk rows cs) := by
  refine ⟨by simp [generateSQL], ?_, ?_, ?_⟩
  · intro i
    simp [generateSQL]
  · intro i j hij hj ei ej hei hej
    have hi : i < cs.length := lt_trans hij hj
    have hei2 : cs[i] = ei := by
      rw [List.getElem?_eq_getElem hi] at hei
      exact Option.some.inj hei
    have hej2 : cs[j] = ej := by
      rw [List.getElem?_eq_getElem hj] at hej
      exact Option.some.inj hej
    have := List.pairwise_iff_getElem.mp hs i j hi hj hij
    rwa [hei2, hej2] at this
  · intro idx vs hmem _
    exact List.mem_map.mpr ⟨(idx, RowChange.insert vs), hmem, rfl⟩

theorem c4_generateSQL_shape_witness :
    (generateSQL "t" ["a"] none [[CellValue.num 1]]
        [(0, RowChange.delete), (1, RowChange.insert [CellValue.null])]).length
      = 2
  ∧ insertStatement "t" ["a"] [CellValue.null]
      ∈ generateSQL "t" ["a"] none [[CellValue.num 1]]
          [(0, RowChange.delete), (1, RowChange.insert [CellValue.null])] := by
  have h := c4_generateSQL_shape "t" ["a"] none [[CellValue.num 1]]
    [(0, RowChange.delete), (1, RowChange.insert [CellValue.null])]
    (by simp [ChangesetSorted])
  exact ⟨h.1, h.2.2.2 1 [CellValue.null] (by simp) (by decide)⟩
